import Mathlib

/-!
Verification development for the Excel order-processing pipeline
(`automation_tool_fixed.py`, `material_sorter.py`, `excel_to_txt_converter.py`).

The pipeline stages modelled here are: the row filter (`remove_empty_rows`),
the order-preserving deduplication with quantity aggregation
(`process_duplicates_with_order_preservation`), the thickness classifier
(`extract_thickness_from_material`, `sort_data_by_thickness`), the 27-column
schema projection (`_populate_worksheet`), and the per-sheet text-export file
naming (`format_sheet_name_for_filename`, `convert_sheet_to_txt`).

Modelling conventions:
* A cell is `Option String`: `none` models a null/NaN cell, `some s` the
  textual content of a populated cell (the Python code funnels every cell
  through `str(...)` before numeric parsing, so the textual view is faithful).
* Python string operations (`replace`, `strip`, `endswith`, slicing) are
  re-implemented on `List Char`, matching Python's per-character semantics.
  `str.strip` and the regex class `\s` are modelled on ASCII whitespace.
* `float(...)` followed by `round(...)` is modelled exactly on decimal
  literals (optional sign, digits, at most one point) as a scaled integer,
  with round-half-to-even; exponent/`inf`/`nan`/underscore forms — which do
  not occur in this data — are treated as parse failures, and the
  double-rounding of extreme-precision literals through binary floating
  point is not modelled.
-/

namespace Pipeline

/-- A spreadsheet cell: `none` models a null/NaN cell, `some s` the text of a
populated cell. -/
abbrev Cell := Option String

/-- A row is an ordered list of cells, addressed only by position. -/
abbrev Row := List Cell

/-- A table is an ordered list of rows. -/
abbrev Table := List Row

/-- Cell of `r` at position `i` (`none`, i.e. null, when out of range). -/
def cellAt (r : Row) (i : Nat) : Cell := r.getD i none

/-- The pandas test `notna(x) & (x != '')`: the cell is neither null nor the
empty string. -/
def nonEmpty : Cell → Bool
  | none => false
  | some s => s != ""

/-! ### Python string primitives on character lists -/

/-- ASCII whitespace, as recognised by Python's `str.strip` and the regex
class `\s` on the ASCII range. -/
def isPyWhitespace (c : Char) : Bool :=
  c = ' ' || c = '\t' || c = '\n' || c = '\r' || c = '\x0b' || c = '\x0c'

/-- Fuel-indexed worker for `replaceChars`; the fuel is an upper bound on the
number of characters still to be consumed, so `fuel = s.length` always
suffices. -/
def replaceGo (pat rep : List Char) : Nat → List Char → List Char
  | _, [] => []
  | 0, s => s
  | fuel + 1, c :: rest =>
    if pat.isPrefixOf (c :: rest) && !pat.isEmpty then
      rep ++ replaceGo pat rep fuel ((c :: rest).drop pat.length)
    else
      c :: replaceGo pat rep fuel rest

/-- Python `str.replace`: replace every non-overlapping occurrence of `pat`
(nonempty at all call sites of this development), scanning left to right. -/
def replaceChars (pat rep s : List Char) : List Char :=
  replaceGo pat rep s.length s

/-- Python `str.strip`: drop leading and trailing whitespace. -/
def stripChars (s : List Char) : List Char :=
  ((s.dropWhile isPyWhitespace).reverse.dropWhile isPyWhitespace).reverse

/-- Python `str.replace` lifted to `String`. -/
def pyReplace (s pat rep : String) : String :=
  ⟨replaceChars pat.data rep.data s.data⟩

/-- Python `str.strip` lifted to `String`. -/
def pyStrip (s : String) : String := ⟨stripChars s.data⟩

/-! ### Numeric parsing: `int(round(float(clean)))` with fallback to zero -/

/-- Numeric value of an ASCII digit. -/
def digitVal (c : Char) : Nat := c.toNat - '0'.toNat

/-- Value of a digit string, most significant first. -/
def digitsToNat (ds : List Char) : Nat := ds.foldl (fun a c => 10 * a + digitVal c) 0

/-- An exact decimal number `num / 10 ^ exp`, the result of parsing a decimal
literal. -/
structure DecNum where
  num : Int
  exp : Nat
deriving DecidableEq

/-- Python `float(...)` on a plain decimal literal: optional sign, digits with
at most one decimal point, at least one digit. Other forms fail. -/
def parsePyFloat (s : List Char) : Option DecNum :=
  let signRest : Bool × List Char :=
    match s with
    | '-' :: r => (true, r)
    | '+' :: r => (false, r)
    | r => (false, r)
  let neg := signRest.1
  let rest := signRest.2
  let ip := rest.takeWhile Char.isDigit
  let rest2 := rest.drop ip.length
  let mk : List Char → Option DecNum := fun fp =>
    let n : Int := Int.ofNat (digitsToNat (ip ++ fp))
    some ⟨if neg then -n else n, fp.length⟩
  match rest2 with
  | [] => if ip.isEmpty then none else mk []
  | '.' :: fr =>
    let fp := fr.takeWhile Char.isDigit
    if (fr.drop fp.length).isEmpty then
      if ip.isEmpty && fp.isEmpty then none else mk fp
    else none
  | _ => none

/-- Python `round(...)` to an integer: round half to even. -/
def roundHalfEven (v : DecNum) : Int :=
  let d : Int := (10 : Int) ^ v.exp
  let q := v.num.fdiv d
  let r := v.num - q * d
  if 2 * r < d then q
  else if d < 2 * r then q + 1
  else if q % 2 = 0 then q else q + 1

/-- Models `int(round(float(clean))) if clean else 0`, with parse failures recovered
as zero (the `except` branches of the source). -/
def parseCleanedQty (clean : List Char) : Int :=
  if clean.isEmpty then 0
  else
    match parsePyFloat clean with
    | some v => roundHalfEven v
    | none => 0

/-- Numeric parse used by the deduplication stage:
`str(x).replace(',', '.').replace(' ', '').strip()` then
`int(round(float(...)))`, null and failures contributing zero. -/
def parseQtyDedup (c : Cell) : Int :=
  match c with
  | none => 0
  | some s => parseCleanedQty (stripChars (replaceChars [' '] [] (replaceChars [','] ['.'] s.data)))

/-- Numeric parse used by the classifier and the schema projector:
`str(x).strip().replace(',', '.').replace(' ', '')` then
`int(round(float(...)))`, null and failures contributing zero. -/
def parseQtyClass (c : Cell) : Int :=
  match c with
  | none => 0
  | some s => parseCleanedQty (replaceChars [' '] [] (replaceChars [','] ['.'] (stripChars s.data)))

/-! ### Text-export file naming (`excel_to_txt_converter.py`) -/

/-- Models `ExcelToTxtConverter.format_sheet_name_for_filename`: the dot is removed
only for the exact sheet name `"1.5mm"`; every other name is returned
verbatim. -/
def format_sheet_name_for_filename (sheet : String) : String :=
  if sheet = "1.5mm" then "15mm" else sheet

/-- The per-sheet export file name built in
`ExcelToTxtConverter.convert_sheet_to_txt`:
`f"{order_id}_{formatted_sheet_name}.txt"`. -/
def txt_filename (orderId sheet : String) : String :=
  orderId ++ "_" ++ format_sheet_name_for_filename sheet ++ ".txt"

/-! ### Row filter and deduplication (`automation_tool_fixed.py`) -/

/-- The `ExcelProcessor` state relevant to the pipeline: `df` is `none` before
`load_data`, otherwise the loaded table together with its column count
(`df.shape[1]`; a DataFrame keeps its arity even with zero rows). -/
structure ProcState where
  df : Option (Nat × Table)
deriving DecidableEq

/-- Row predicate of `remove_empty_rows`: at least one of the two designated
cells is non-null and non-empty. -/
def rowHasData (c1 c2 : Nat) (r : Row) : Bool :=
  nonEmpty (cellAt r c1) || nonEmpty (cellAt r c2)

/-- Models `ExcelProcessor.remove_empty_rows`: keeps the rows where at least one of
the two designated cells has data; fails (returning `false` and leaving the
state unchanged) when the data is not loaded or either column position is out
of range. -/
def remove_empty_rows (st : ProcState) (c1 c2 : Nat) : ProcState × Bool :=
  match st.df with
  | none => (st, false)
  | some (ncols, t) =>
    if ncols ≤ c1 || ncols ≤ c2 then (st, false)
    else (⟨some (ncols, t.filter (rowHasData c1 c2))⟩, true)

/-- The primary-key view of a row: `some v` when the cell at the key position
is non-null and not the empty string, `none` otherwise (the mask
`notna & (x != '')` and the defensive re-check inside the aggregation
loop). -/
def rowKey (k : Nat) (r : Row) : Option String :=
  match cellAt r k with
  | none => none
  | some v => if v = "" then none else some v

/-- Rows surviving the primary-key filter, keeping their original positions
(the `_original_order` column is modelled as the explicit index
component). -/
def keyFilterIdx (k : Nat) (l : List (Nat × Row)) : List (Nat × Row) :=
  l.filter (fun p => (rowKey k p.2).isSome)

/-- Rows of `t` surviving the primary-key filter. -/
def keyFilter (k : Nat) (t : Table) : Table :=
  t.filter (fun r => (rowKey k r).isSome)

/-- The per-key aggregation record of the deduplication loop: position of the
first occurrence, the first occurrence's row, and the running quantity sum. -/
structure AggRecord where
  key : String
  order : Nat
  data : Row
  sum_value : Int
deriving DecidableEq

/-- One step of the deduplication loop: a row with a fresh key opens a record
(initial sum = its parsed quantity); a duplicate key adds its parsed quantity
to the existing record, leaving the stored row untouched. -/
def aggStep (k s : Nat) (recs : List AggRecord) (p : Nat × Row) : List AggRecord :=
  match rowKey k p.2 with
  | none => recs
  | some v =>
    if recs.any (fun rec => rec.key == v) then
      recs.map (fun rec =>
        if rec.key == v then { rec with sum_value := rec.sum_value + parseQtyDedup (cellAt p.2 s) }
        else rec)
    else
      recs ++ [⟨v, p.1, p.2, parseQtyDedup (cellAt p.2 s)⟩]

/-- The whole deduplication loop over the key-filtered indexed rows. -/
def aggregate (k s : Nat) (l : List (Nat × Row)) : List AggRecord :=
  l.foldl (aggStep k s) []

/-- Assembly of the deduplicated table: records sorted by first-occurrence
position (Python's stable `sorted(..., key=order)`), each emitting its stored
first-occurrence row with the sum cell overwritten by the accumulated sum. -/
def dedupRows (k s : Nat) (t : Table) : Table :=
  ((aggregate k s (keyFilterIdx k t.enum)).mergeSort (fun a b => a.order ≤ b.order)).map
    (fun rec => rec.data.set s (some (toString rec.sum_value)))

/-- Models `max(keep_cols + [primary_key_col, sum_col])`. -/
def maxColIdx (keep : List Nat) (k s : Nat) : Nat :=
  (keep ++ [k, s]).foldl max 0

/-- Projection of a row onto the kept column positions, silently dropping
positions at or beyond the arity (`valid_keep_cols`). -/
def projectRow (keep : List Nat) (ncols : Nat) (r : Row) : Row :=
  (keep.filter (fun c => c < ncols)).map (fun c => cellAt r c)

/-- Models `ExcelProcessor.process_duplicates_with_order_preservation` as a function
of the loaded table: `none` models every `return False` path (configured
position out of range, no rows surviving the key filter, empty result). -/
def process_duplicates (k s : Nat) (keep : List Nat) (ncols : Nat) (t : Table) : Option Table :=
  if ncols ≤ maxColIdx keep k s then none
  else if (keyFilterIdx k t.enum).isEmpty then none
  else
    let result := dedupRows k s t
    if result.isEmpty then none
    else some (result.map (projectRow keep ncols))

/-- The deduplication stage acting on the processor state: `self.df` is
reassigned only on the success path (its arity becomes the number of kept
columns); every failure leaves the state untouched. -/
def processor_dedup (st : ProcState) (k s : Nat) (keep : List Nat) : ProcState × Bool :=
  match st.df with
  | none => (st, false)
  | some (ncols, t) =>
    match process_duplicates k s keep ncols t with
    | none => (st, false)
    | some t' => (⟨some ((keep.filter (fun c => c < ncols)).length, t')⟩, true)

/-- Worker for `firstOccur` with an accumulator of the values already
seen, in order. -/
def firstOccurAux {α : Type} [DecidableEq α] (acc : List α) (l : List α) : List α :=
  l.foldl (fun a x => if x ∈ a then a else a ++ [x]) acc

/-- The distinct values of `l` in order of first occurrence. -/
def firstOccur {α : Type} [DecidableEq α] (l : List α) : List α := firstOccurAux [] l

/-- Sum of the parsed quantities of the rows of `l` bearing the key `v`. -/
def sumKeyOver (k s : Nat) (v : String) (l : List (Nat × Row)) : Int :=
  ((l.filter (fun p => rowKey k p.2 == some v)).map
    (fun p => parseQtyDedup (cellAt p.2 s))).sum

/-- Loop invariant of the deduplication fold, over the already processed
indexed rows `l`: the records hold the distinct keys in first-occurrence
order, each record stores the position and row of its key's first occurrence
and the sum of the parsed quantities of all processed rows with its key, and
the stored first-occurrence positions are strictly increasing and drawn from
the processed positions. -/
def AggInv (k s : Nat) (l : List (Nat × Row)) (recs : List AggRecord) : Prop :=
  (recs.map (fun rec => (some rec.key : Option String)) =
    firstOccur (l.map (fun p => cellAt p.2 k))) ∧
  (∀ rec ∈ recs, l.find? (fun p => rowKey k p.2 == some rec.key) = some (rec.order, rec.data)) ∧
  (∀ rec ∈ recs, rec.sum_value = sumKeyOver k s rec.key l) ∧
  (recs.map AggRecord.order).Pairwise (· < ·) ∧
  (∀ rec ∈ recs, rec.order ∈ l.map Prod.fst)

/-! ### Thickness classification (`material_sorter.py`) -/

/-- Match of the regex `-([0-9]+,[0-9]+)\s` anchored at the current position:
a hyphen, a maximal nonempty digit run, a comma, a maximal nonempty digit run,
then a whitespace character. (Backtracking to a shorter digit run can never
help, since the character after a shortened run is a digit, which is neither
`,` nor `\s`; so maximal munch is equivalent to the regex engine.) The two
capture groups are returned separately. -/
def matchDecimalAt (cs : List Char) : Option (List Char × List Char) :=
  match cs with
  | '-' :: rest =>
    let ds1 := rest.takeWhile Char.isDigit
    if ds1.isEmpty then none
    else
      match rest.drop ds1.length with
      | ',' :: rest2 =>
        let ds2 := rest2.takeWhile Char.isDigit
        if ds2.isEmpty then none
        else
          match rest2.drop ds2.length with
          | c :: _ => if isPyWhitespace c then some (ds1, ds2) else none
          | [] => none
      | _ => none
  | _ => none

/-- Match of the regex `-([0-9]+)\s` anchored at the current position (same
maximal-munch argument as `matchDecimalAt`). -/
def matchIntegerAt (cs : List Char) : Option (List Char) :=
  match cs with
  | '-' :: rest =>
    let ds := rest.takeWhile Char.isDigit
    if ds.isEmpty then none
    else
      match rest.drop ds.length with
      | c :: _ => if isPyWhitespace c then some ds else none
      | [] => none
  | _ => none

/-- Models `re.search`: try the anchored matcher at each position from the left and
return the first (leftmost) success. (The patterns used here cannot match the
empty suffix, so stopping before it is equivalent.) -/
def searchPat {α : Type} (f : List Char → Option α) : List Char → Option α
  | [] => none
  | c :: rest =>
    match f (c :: rest) with
    | some x => some x
    | none => searchPat f rest

/-- Exact comparison of the decimal value `v` with the rational `a / b`
(`b ≠ 0`): models the source's float equality tests, which are exact at the
compared values `1.0`, `1.5`, `2.0`, `3.0`. -/
def DecNum.eqVal (v : DecNum) (a : Int) (b : Nat) : Bool :=
  (b : Int) * v.num == a * (10 : Int) ^ v.exp

/-- Models `MaterialSorter.extract_thickness_from_material`: null or empty
descriptions are unclassified; otherwise the decimal pattern `-X,Y␣` is tried
first (value `X.Y` mapped to the four canonical labels, other values
synthesizing `"{X.Y}mm"` from the original digits with the comma replaced by
a dot), then the integer pattern `-N␣` (`1`/`2`/`3` mapped, other integers
synthesizing `"{int(N)}mm"`); no match is unclassified (`none`). The value of
`float("d1.d2")` is represented exactly as the scaled integer
`⟨digits, #fractional digits⟩`. -/
def extract_thickness_from_material (m : Cell) : Option String :=
  match m with
  | none => none
  | some desc =>
    if desc = "" then none
    else
      match searchPat matchDecimalAt desc.data with
      | some (ds1, ds2) =>
        let tf : DecNum := ⟨Int.ofNat (digitsToNat (ds1 ++ ds2)), ds2.length⟩
        if tf.eqVal 1 1 then some "1mm"
        else if tf.eqVal 3 2 then some "1.5mm"
        else if tf.eqVal 2 1 then some "2mm"
        else if tf.eqVal 3 1 then some "3mm"
        else some (String.mk (ds1 ++ '.' :: ds2) ++ "mm")
      | none =>
        match searchPat matchIntegerAt desc.data with
        | some ds =>
          if digitsToNat ds = 1 then some "1mm"
          else if digitsToNat ds = 2 then some "2mm"
          else if digitsToNat ds = 3 then some "3mm"
          else some (toString (digitsToNat ds) ++ "mm")
        | none => none

/-- Append row `r` to the group labelled `lab`, creating the group at the end
on first use (Python dict insertion order). -/
def insertGroup : List (String × List Row) → String → Row → List (String × List Row)
  | [], lab, r => [(lab, [r])]
  | (l, rs) :: rest, lab, r =>
    if l = lab then (l, rs ++ [r]) :: rest
    else (l, rs) :: insertGroup rest lab r

/-- One step of the grouping loop of `MaterialSorter.sort_data_by_thickness`:
the row's material description (column index 1) is classified; matched rows
join their label's group, unmatched rows are appended to the separate list. -/
def classifyStep (acc : List (String × List Row) × List Row) (r : Row) :
    List (String × List Row) × List Row :=
  match extract_thickness_from_material (cellAt r 1) with
  | some lab => (insertGroup acc.1 lab r, acc.2)
  | none => (acc.1, acc.2 ++ [r])

/-- The grouping loop of `MaterialSorter.sort_data_by_thickness` over the
data rows (`if idx == 0: continue` skips exactly the header row, i.e. the
loop runs over `t.drop 1`). -/
def sort_data_by_thickness (t : Table) : List (String × List Row) × List Row :=
  (t.drop 1).foldl classifyStep ([], [])

/-- Total parsed quantity (column index 6) of a list of rows. -/
def totalQuantity (rows : List Row) : Int :=
  (rows.map (fun r => parseQtyClass (cellAt r 6))).sum

/-- Models `total_input_quantity`: total parsed quantity over all data rows (header
row 0 skipped). -/
def total_input_quantity (t : Table) : Int := totalQuantity (t.drop 1)

/-- Models `total_grouped_quantity`: per-group totals summed, plus the unmatched
total (added only under `if unmatched_rows:`, which is the same value). -/
def total_grouped_quantity (t : Table) : Int :=
  ((sort_data_by_thickness t).1.map (fun g => totalQuantity g.2)).sum +
    (if (sort_data_by_thickness t).2.isEmpty then 0
     else totalQuantity (sort_data_by_thickness t).2)

/-! ### Schema projection (`MaterialSorter._populate_worksheet`) -/

/-- Output cell values: the 27-column records mix integers and strings. -/
inductive XVal where
  | i (n : Int)
  | s (t : String)
deriving DecidableEq

/-- Header sentinel texts: a row whose first cell is one of these is skipped
by the projection loop (defensive re-check). -/
def headerSentinels : List String :=
  ["nan", "Порядковый номер", "OrderID", "PartName", "Приоритет"]

/-- Field access in the projection loop:
`row_series.iloc[i] if len(row_series) > i else ""` — a missing position
defaults to the empty string, while a present cell may still be null. -/
def fieldD (r : Row) (i : Nat) : Cell := r.getD i (some "")

/-- The header-row test of the projection loop: the first field is a string
appearing in `headerSentinels` (a null first cell is not a string, hence not
a header). -/
def isHeaderRow (r : Row) : Bool :=
  match fieldD r 0 with
  | some fv => headerSentinels.contains fv
  | none => false

/-- Designation transformation: replace the substring `"ДСМК."` by
`"DSMK."`, then strip a trailing `" DXF"` (four characters) if present —
no other suffix is removed. -/
def transformedDesignation (d : String) : String :=
  let t := pyReplace d "ДСМК." "DSMK."
  if " DXF".data.isSuffixOf t.data then ⟨t.data.take (t.data.length - 4)⟩ else t

/-- Anchored match of the regex `(\d+)`: a maximal nonempty digit run
starting here. -/
def matchDigitsAt (cs : List Char) : Option (List Char) :=
  let ds := cs.takeWhile Char.isDigit
  if ds.isEmpty then none else some ds

/-- Version suffix derived from the revision field: `"_V"` followed by the
first digit run of the stripped text, or `"_V0"` when the field is null,
empty, or contains no digit. -/
def versionSuffix (h : Cell) : String :=
  match h with
  | none => "_V0"
  | some hs =>
    if hs = "" then "_V0"
    else
      match searchPat matchDigitsAt (stripChars hs.data) with
      | some ds => "_V" ++ ⟨ds⟩
      | none => "_V0"

/-- Thickness file suffix keyed by the sheet label. -/
def thicknessSuffix (sheet : String) : String :=
  if sheet = "1mm" then "_1mmZn"
  else if sheet = "1.5mm" then "_1.5mmZn"
  else if sheet = "2mm" then "_2mmZn"
  else if sheet = "3mm" then "_3mmZn"
  else ""

/-- Machine name keyed by the sheet label. -/
def machineName (sheet : String) : String :=
  if sheet = "1mm" || sheet = "2mm" || sheet = "3mm" then "A5-25"
  else if sheet = "1.5mm" then "E5_TOPAZ"
  else ""

/-- The fixed network-path prefix of the Drawing column
(`r"\\srvdata\FMS\ncexpress\E5_TOPAZ\PARTDIR"`). -/
def basePath : String := "\\\\srvdata\\FMS\\ncexpress\\E5_TOPAZ\\PARTDIR"

/-- Python `f"{x:.6f}"` on the exact decimal `v`: the value rounded (half to
even) at the sixth decimal place, printed with exactly six fractional
digits. -/
def formatSixDec (v : DecNum) : String :=
  let n := roundHalfEven ⟨v.num * (10 : Int) ^ (6 : Nat), v.exp⟩
  let a := n.natAbs
  let ip := a / 1000000
  let fp := a % 1000000
  let fps := toString fp
  let fpad := String.mk (List.replicate (6 - fps.length) '0') ++ fps
  (if n < 0 then "-" else "") ++ toString ip ++ "." ++ fpad

/-- The Thickness column text: the sheet label with `"mm"` removed is
formatted as a six-decimal float when, after also removing dots, only digits
remain; otherwise `0` is formatted. A text passing the digit test but failing
the float parse (e.g. two dots) raises in the source, modelled as `none`. -/
def thicknessFieldStr (sheet : String) : Option String :=
  let stripped := replaceChars "mm".data [] sheet.data
  let digitsOnly := replaceChars ['.'] [] stripped
  if !digitsOnly.isEmpty && digitsOnly.all Char.isDigit then
    (parsePyFloat stripped).map formatSixDec
  else some (formatSixDec ⟨0, 0⟩)

/-- The 27-field output record (columns A..AA) in order: OrderID, PartName,
QuantityOrdered, QuantityNested, QuantityCompleted, ExtraAllowed, Machine,
AssemblyID, DueDate, DateWindow, Priority, ForcedPriority, NextPhase, Status,
Material, Thickness, AutoTooling, ScriptTooling, ScriptName, ManualNesting,
Drawing, Turret, ProductionLabel, Revision, BendingMode, BendingParameters,
Parameters. -/
def outputRecord (orderId partName : String) (qty : Int) (machine todayDate : String)
    (priority : XVal) (tf : String) (drawing : String) : List XVal :=
  [XVal.s orderId, XVal.s partName, XVal.i qty, XVal.i 0, XVal.i 0, XVal.i 0,
   XVal.s machine, XVal.s "", XVal.s todayDate, XVal.i 0,
   priority, XVal.i 0, XVal.i 0, XVal.i 0, XVal.s "DC01", XVal.s tf,
   XVal.i 0, XVal.i 0, XVal.s "", XVal.i 0,
   XVal.s drawing, XVal.s "", XVal.s "", XVal.s "", XVal.i (-1), XVal.s "", XVal.s ""]

/-- One iteration of the row loop of `MaterialSorter._populate_worksheet`.
The state `st` is the Python local `full_part_name`, which is assigned only
inside the non-empty-designation branch and therefore persists across
iterations. Result: `none` models an exception escaping the loop (the
`NameError` on a first row without designation, since `new_row_data`
evaluates `full_part_name` before anything else can fail); otherwise the new
state and the emitted record (`none` when the header re-check skips the
row). A row without designation keeps `drawing_path = ""` but writes the
stale `full_part_name` into the PartName column. -/
def populateRow (sheet orderId todayDate : String) (st : Option String) (r : Row) :
    Option (Option String × Option (List XVal)) :=
  if isHeaderRow r then some (st, none)
  else
    let quantity := parseQtyClass (cellAt r 6)
    let priority : XVal :=
      match fieldD r 3 with
      | none => XVal.s ""
      | some p => XVal.s p
    let desig : Option String :=
      match fieldD r 5 with
      | none => none
      | some d => if d = "" then none else some d
    match desig with
    | some d =>
      let partName := pyStrip (transformedDesignation d)
      let fullPN := partName ++ versionSuffix (fieldD r 4) ++ thicknessSuffix sheet
      (thicknessFieldStr sheet).map fun tf =>
        (some fullPN,
          some (outputRecord orderId fullPN quantity (machineName sheet) todayDate priority tf
            (basePath ++ "\\" ++ fullPN)))
    | none =>
      match st with
      | none => none
      | some prev =>
        (thicknessFieldStr sheet).map fun tf =>
          (st, some (outputRecord orderId prev quantity (machineName sheet) todayDate priority tf ""))

/-- The row loop of `MaterialSorter._populate_worksheet` as a fold carrying
the `full_part_name` state and the emitted records. -/
def populateRowsGo (sheet orderId todayDate : String)
    (acc : Option (Option String × List (List XVal))) (rows : List Row) :
    Option (Option String × List (List XVal)) :=
  rows.foldl (fun a r =>
    match a with
    | none => none
    | some (st, out) =>
      match populateRow sheet orderId todayDate st r with
      | none => none
      | some (st', none) => some (st', out)
      | some (st', some rec) => some (st', out ++ [rec])) acc

/-- All records emitted for one sheet (`none` when the loop raises). -/
def populateRows (sheet orderId todayDate : String) (rows : List Row) :
    Option (List (List XVal)) :=
  (populateRowsGo sheet orderId todayDate (some (none, [])) rows).map (fun a => a.2)

end Pipeline

namespace Pipeline

/-- C9, counterexample: the claim says dot-removal applies to every sheet
label containing a dot, but for the label `"2.5mm"` the exported file name
keeps the dot: it is `"25-072_2.5mm.txt"`, not `"25-072_25mm.txt"`. -/
theorem txt_filename_keeps_dot_for_25mm :
    txt_filename "25-072" "2.5mm" = "25-072_2.5mm.txt" ∧
      txt_filename "25-072" "2.5mm" ≠ "25-072_25mm.txt" := by
  constructor
  · rfl
  · decide

/-- C9, amended: the export file name is the order identifier, an underscore,
the sheet label and `".txt"`, where the label's dot is removed only when the
label is exactly `"1.5mm"` (giving `"15mm"`); every other label — dotted or
not — is used verbatim. -/
theorem txt_filename_spec (orderId sheet : String) (h : sheet ≠ "1.5mm") :
    txt_filename orderId "1.5mm" = orderId ++ "_" ++ "15mm" ++ ".txt" ∧
      txt_filename orderId sheet = orderId ++ "_" ++ sheet ++ ".txt" := by
  constructor
  · rfl
  · simp [txt_filename, format_sheet_name_for_filename, h]

/-- Witness for `txt_filename_spec` at order id `"25-072"` and sheet
`"2mm"`. -/
theorem txt_filename_spec_witness :
    txt_filename "25-072" "1.5mm" = "25-072" ++ "_" ++ "15mm" ++ ".txt" ∧
      txt_filename "25-072" "2mm" = "25-072" ++ "_" ++ "2mm" ++ ".txt" :=
  txt_filename_spec "25-072" "2mm" (by decide)

/-- C6: with both column positions in range, `remove_empty_rows` succeeds and
replaces the table by exactly the subsequence of rows whose cell at `c1` or at
`c2` is non-null and non-empty, in the original relative order (a sublist);
with either position out of range it reports failure and leaves the state
unchanged. -/
theorem remove_empty_rows_spec (st : ProcState) (c1 c2 ncols : Nat) (t : Table)
    (hdf : st.df = some (ncols, t)) :
    (c1 < ncols → c2 < ncols →
      remove_empty_rows st c1 c2 =
        (⟨some (ncols, t.filter (fun r => nonEmpty (cellAt r c1) || nonEmpty (cellAt r c2)))⟩,
          true) ∧
      (t.filter (fun r => nonEmpty (cellAt r c1) || nonEmpty (cellAt r c2))).Sublist t ∧
      ∀ r, r ∈ t.filter (fun r => nonEmpty (cellAt r c1) || nonEmpty (cellAt r c2)) ↔
        r ∈ t ∧ (nonEmpty (cellAt r c1) = true ∨ nonEmpty (cellAt r c2) = true)) ∧
    ((ncols ≤ c1 ∨ ncols ≤ c2) → remove_empty_rows st c1 c2 = (st, false)) := by
  constructor
  · intro h1 h2
    refine ⟨?_, List.filter_sublist t, fun r => ?_⟩
    · simp only [remove_empty_rows, hdf]
      rw [if_neg]
      · rfl
      · simp [Nat.not_le.mpr h1, Nat.not_le.mpr h2]
    · simp [List.mem_filter]
  · intro h
    rcases h with h | h <;> simp [remove_empty_rows, hdf, h]

/-- Witness for `remove_empty_rows_spec`: the out-of-range branch at a
concrete state (columns `0, 2` on a 2-column table) leaves the state
unchanged. -/
theorem remove_empty_rows_spec_witness :
    remove_empty_rows ⟨some (2, [[some "a", none], [none, none]])⟩ 0 2 =
      (⟨some (2, [[some "a", none], [none, none]])⟩, false) :=
  (remove_empty_rows_spec ⟨some (2, [[some "a", none], [none, none]])⟩ 0 2 2
    [[some "a", none], [none, none]] rfl).2 (Or.inr (by decide))

/-- C7: whenever the deduplication stage reports failure its state is left
unchanged (atomicity), and each of the enumerated failure sources — a
configured column position at or beyond the arity, or no rows surviving the
key filter — does make it report failure with the state unchanged. -/
theorem process_duplicates_failure_atomic (st : ProcState) (k s : Nat) (keep : List Nat) :
    ((processor_dedup st k s keep).2 = false → (processor_dedup st k s keep).1 = st) ∧
    (∀ ncols t, st.df = some (ncols, t) →
      (ncols ≤ maxColIdx keep k s ∨ keyFilterIdx k t.enum = []) →
      processor_dedup st k s keep = (st, false)) := by
  constructor
  · cases hdf : st.df with
    | none => simp [processor_dedup, hdf]
    | some v =>
      obtain ⟨ncols, t⟩ := v
      cases hpd : process_duplicates k s keep ncols t <;>
        simp [processor_dedup, hdf, hpd]
  · intro ncols t hdf hfail
    have hnone : process_duplicates k s keep ncols t = none := by
      rcases hfail with h | h
      · simp [process_duplicates, h]
      · by_cases hc : ncols ≤ maxColIdx keep k s <;> simp [process_duplicates, hc, h]
    simp [processor_dedup, hdf, hnone]

/-- Witness for `process_duplicates_failure_atomic`: sum column 5 on a
2-column table is out of range, so the stage fails and the state is
unchanged. -/
theorem process_duplicates_failure_atomic_witness :
    processor_dedup ⟨some (2, [[some "a", some "1"]])⟩ 0 5 [0] =
      (⟨some (2, [[some "a", some "1"]])⟩, false) :=
  (process_duplicates_failure_atomic ⟨some (2, [[some "a", some "1"]])⟩ 0 5 [0]).2 2
    [[some "a", some "1"]] rfl (Or.inl (by decide))

/-- Appending a row into its group permutes into appending it at the end of
the concatenation of all groups. -/
theorem insertGroup_flatten_perm (gs : List (String × List Row)) (lab : String) (r : Row) :
    (((insertGroup gs lab r).map Prod.snd).flatten).Perm
      ((gs.map Prod.snd).flatten ++ [r]) := by
  induction gs with
  | nil => simp [insertGroup]
  | cons g rest ih =>
    obtain ⟨l, rs⟩ := g
    by_cases h : l = lab
    · simp only [insertGroup, if_pos h, List.map_cons, List.flatten_cons]
      have h1 : (rs ++ [r]) ++ (rest.map Prod.snd).flatten =
          rs ++ ([r] ++ (rest.map Prod.snd).flatten) := by
        rw [List.append_assoc]
      have h2 : rs ++ ((rest.map Prod.snd).flatten ++ [r]) =
          (rs ++ (rest.map Prod.snd).flatten) ++ [r] := by
        rw [List.append_assoc]
      rw [h1, ← h2]
      exact List.Perm.append_left rs List.perm_append_comm
    · simp only [insertGroup, if_neg h, List.map_cons, List.flatten_cons]
      have h2 : (rs ++ (rest.map Prod.snd).flatten) ++ [r] =
          rs ++ ((rest.map Prod.snd).flatten ++ [r]) := by
        rw [List.append_assoc]
      rw [h2]
      exact List.Perm.append_left rs ih

/-- Fold invariant of the grouping loop: the concatenation of all groups plus
the unmatched list is a permutation of the accumulator's contents followed by
the processed rows. -/
theorem classify_fold_perm (l : List Row) (acc : List (String × List Row) × List Row) :
    ((((l.foldl classifyStep acc).1.map Prod.snd).flatten ++ (l.foldl classifyStep acc).2)).Perm
      (((acc.1.map Prod.snd).flatten ++ acc.2) ++ l) := by
  induction l generalizing acc with
  | nil => simp
  | cons r rest ih =>
    have hstep :
        (((classifyStep acc r).1.map Prod.snd).flatten ++ (classifyStep acc r).2).Perm
          (((acc.1.map Prod.snd).flatten ++ acc.2) ++ [r]) := by
      unfold classifyStep
      cases hx : extract_thickness_from_material (cellAt r 1) with
      | some lab =>
        simp only
        have h1 := (insertGroup_flatten_perm acc.1 lab r).append_right acc.2
        refine h1.trans ?_
        have h2 : ((acc.1.map Prod.snd).flatten ++ [r]) ++ acc.2 =
            (acc.1.map Prod.snd).flatten ++ ([r] ++ acc.2) := by
          rw [List.append_assoc]
        have h3 : ((acc.1.map Prod.snd).flatten ++ acc.2) ++ [r] =
            (acc.1.map Prod.snd).flatten ++ (acc.2 ++ [r]) := by
          rw [List.append_assoc]
        rw [h2, h3]
        exact List.Perm.append_left _ List.perm_append_comm
      | none =>
        simp only
        rw [← List.append_assoc]
    have hrest := ih (classifyStep acc r)
    have := hrest.trans (hstep.append_right rest)
    simpa [List.append_assoc] using this

/-- C5: every data row (header row 0 excluded) lands in exactly one bucket:
the multiset union of all thickness-group rows and the unclassified rows is
exactly the multiset of data rows — nothing duplicated, nothing dropped. -/
theorem classification_partition (t : Table) :
    ((((sort_data_by_thickness t).1.map Prod.snd).flatten ++
        (sort_data_by_thickness t).2)).Perm (t.drop 1) := by
  simpa [sort_data_by_thickness] using classify_fold_perm (t.drop 1) ([], [])

/-- C3: classification conserves the total parsed quantity: the input total
over all data rows equals the grouped total over all thickness groups plus
the unclassified bucket. -/
theorem classification_quantity_conservation (t : Table) :
    total_input_quantity t = total_grouped_quantity t := by
  have hperm :
      ((((sort_data_by_thickness t).1.map Prod.snd).flatten ++
          (sort_data_by_thickness t).2)).Perm (t.drop 1) := by
    simpa [sort_data_by_thickness] using classify_fold_perm (t.drop 1) ([], [])
  have hsum := (hperm.map (fun r => parseQtyClass (cellAt r 6))).sum_eq
  unfold total_input_quantity total_grouped_quantity totalQuantity
  rw [List.map_append, List.sum_append] at hsum
  rw [← hsum, List.map_flatten, List.sum_flatten, List.map_map, List.map_map]
  have hun : (if (sort_data_by_thickness t).2.isEmpty then 0
      else ((sort_data_by_thickness t).2.map (fun r => parseQtyClass (cellAt r 6))).sum) =
      ((sort_data_by_thickness t).2.map (fun r => parseQtyClass (cellAt r 6))).sum := by
    cases h : (sort_data_by_thickness t).2 <;> simp [h]
  rw [hun]
  rfl

/-- C4: thickness extraction tries the hyphen-decimal pattern `-X,Y␣` first
and only on its failure the hyphen-integer pattern `-X␣`; a decimal value
equal to 1.0/1.5/2.0/3.0 yields the canonical label, any other decimal
synthesizes `"{X.Y}mm"` from the original digits with the comma replaced by a
dot; an integer 1/2/3 yields the canonical label, any other integer
synthesizes `"{n}mm"`; and with no match (or a null/empty description) the
row is unclassified. -/
theorem extract_thickness_spec (m : String) (hm : m ≠ "") :
    extract_thickness_from_material none = none ∧
    extract_thickness_from_material (some "") = none ∧
    (∀ ds1 ds2, searchPat matchDecimalAt m.data = some (ds1, ds2) →
      extract_thickness_from_material (some m) =
        some (if DecNum.eqVal ⟨Int.ofNat (digitsToNat (ds1 ++ ds2)), ds2.length⟩ 1 1 then "1mm"
          else if DecNum.eqVal ⟨Int.ofNat (digitsToNat (ds1 ++ ds2)), ds2.length⟩ 3 2 then "1.5mm"
          else if DecNum.eqVal ⟨Int.ofNat (digitsToNat (ds1 ++ ds2)), ds2.length⟩ 2 1 then "2mm"
          else if DecNum.eqVal ⟨Int.ofNat (digitsToNat (ds1 ++ ds2)), ds2.length⟩ 3 1 then "3mm"
          else String.mk (ds1 ++ '.' :: ds2) ++ "mm")) ∧
    (searchPat matchDecimalAt m.data = none →
      ∀ ds, searchPat matchIntegerAt m.data = some ds →
        extract_thickness_from_material (some m) =
          some (if digitsToNat ds = 1 then "1mm"
            else if digitsToNat ds = 2 then "2mm"
            else if digitsToNat ds = 3 then "3mm"
            else toString (digitsToNat ds) ++ "mm")) ∧
    (searchPat matchDecimalAt m.data = none → searchPat matchIntegerAt m.data = none →
      extract_thickness_from_material (some m) = none) := by
  refine ⟨rfl, rfl, ?_, ?_, ?_⟩
  · intro ds1 ds2 h
    simp [extract_thickness_from_material, hm, h]
    split_ifs <;> rfl
  · intro hdec ds h
    simp [extract_thickness_from_material, hm, hdec, h]
    split_ifs <;> rfl
  · intro hdec hint
    simp [extract_thickness_from_material, hm, hdec, hint]

/-- Witness for `extract_thickness_spec`: the description `"Zn-1,5 sheet"`
matches the decimal pattern with digits `1` and `5`, whose value equals 1.5,
so the label is `"1.5mm"`. -/
theorem extract_thickness_spec_witness :
    extract_thickness_from_material (some "Zn-1,5 sheet") = some "1.5mm" := by
  have h := (extract_thickness_spec "Zn-1,5 sheet" (by decide)).2.2.1 ['1'] ['5'] (by decide)
  simpa using h

/-- Evaluation of one projection-loop iteration on a row with a non-empty
designation. -/
theorem populateRow_with_desig (sheet orderId todayDate : String) (st : Option String)
    (r : Row) (d tf : String) (hd : fieldD r 5 = some d) (hne : d ≠ "")
    (hnh : isHeaderRow r = false) (ht : thicknessFieldStr sheet = some tf) :
    populateRow sheet orderId todayDate st r =
      some (some (pyStrip (transformedDesignation d) ++ versionSuffix (fieldD r 4) ++
          thicknessSuffix sheet),
        some (outputRecord orderId
          (pyStrip (transformedDesignation d) ++ versionSuffix (fieldD r 4) ++
            thicknessSuffix sheet)
          (parseQtyClass (cellAt r 6)) (machineName sheet) todayDate
          (match fieldD r 3 with | none => XVal.s "" | some p => XVal.s p) tf
          (basePath ++ "\\" ++ (pyStrip (transformedDesignation d) ++ versionSuffix (fieldD r 4) ++
            thicknessSuffix sheet)))) := by
  simp [populateRow, hnh, hd, hne, ht]

/-- Evaluation of one projection-loop iteration on a non-header row whose
designation is null or empty. -/
theorem populateRow_no_desig (sheet orderId todayDate : String) (r : Row) (tf : String)
    (hd : fieldD r 5 = some "" ∨ fieldD r 5 = none)
    (hnh : isHeaderRow r = false) (ht : thicknessFieldStr sheet = some tf) :
    populateRow sheet orderId todayDate none r = none ∧
    ∀ prev, populateRow sheet orderId todayDate (some prev) r =
      some (some prev, some (outputRecord orderId prev (parseQtyClass (cellAt r 6))
        (machineName sheet) todayDate
        (match fieldD r 3 with | none => XVal.s "" | some p => XVal.s p) tf "")) := by
  rcases hd with h | h <;>
    exact ⟨by simp [populateRow, hnh, h, ht], fun prev => by simp [populateRow, hnh, h, ht]⟩

/-- A raised exception propagates through the rest of the row loop. -/
theorem populateRowsGo_none (sheet orderId todayDate : String) (rows : List Row) :
    populateRowsGo sheet orderId todayDate none rows = none := by
  induction rows with
  | nil => rfl
  | cons r rest ih => simpa [populateRowsGo] using ih

/-- C8: for a projected row with a non-null, non-empty designation, the
emitted PartName (column B, index 1) is the designation with `"ДСМК."`
replaced by `"DSMK."` and a trailing `" DXF"` stripped, concatenated with the
version suffix and the group label's thickness suffix (one of `"_1mmZn"`,
`"_1.5mmZn"`, `"_2mmZn"`, `"_3mmZn"`), and the emitted Drawing (column U,
index 20) is the fixed network-path prefix, a backslash, and that PartName
with no extension. -/
theorem populate_partname_drawing (sheet orderId todayDate : String)
    (hsheet : sheet = "1mm" ∨ sheet = "1.5mm" ∨ sheet = "2mm" ∨ sheet = "3mm")
    (st : Option String) (r : Row) (d : String)
    (hd : fieldD r 5 = some d) (hne : d ≠ "") (hnh : isHeaderRow r = false) :
    ∃ rec : List XVal,
      populateRow sheet orderId todayDate st r =
        some (some (pyStrip (transformedDesignation d) ++ versionSuffix (fieldD r 4) ++
          thicknessSuffix sheet), some rec) ∧
      rec.getD 1 (XVal.i 0) =
        XVal.s (pyStrip (transformedDesignation d) ++ versionSuffix (fieldD r 4) ++
          thicknessSuffix sheet) ∧
      rec.getD 20 (XVal.i 0) =
        XVal.s (basePath ++ "\\" ++ (pyStrip (transformedDesignation d) ++
          versionSuffix (fieldD r 4) ++ thicknessSuffix sheet)) ∧
      thicknessSuffix sheet ∈ ["_1mmZn", "_1.5mmZn", "_2mmZn", "_3mmZn"] := by
  obtain ⟨tf, ht⟩ : ∃ tf, thicknessFieldStr sheet = some tf := by
    rcases hsheet with h | h | h | h <;> subst h <;> exact ⟨_, rfl⟩
  refine ⟨_, populateRow_with_desig sheet orderId todayDate st r d tf hd hne hnh ht,
    rfl, rfl, ?_⟩
  rcases hsheet with h | h | h | h <;> subst h <;> decide

/-- Witness for `populate_partname_drawing`: on sheet `"1.5mm"`, designation
`"ДСМК.12 DXF"` and revision `"3"` produce PartName `"DSMK.12_V3_1.5mmZn"`
and Drawing `basePath ++ "\" ++ "DSMK.12_V3_1.5mmZn"`. -/
theorem populate_partname_drawing_witness :
    ∃ rec : List XVal,
      populateRow "1.5mm" "25-072" "7/24/2025" none
          [some "1", some "b", some "c", some "5", some "3", some "ДСМК.12 DXF", some "7"] =
        some (some "DSMK.12_V3_1.5mmZn", some rec) ∧
      rec.getD 1 (XVal.i 0) = XVal.s "DSMK.12_V3_1.5mmZn" ∧
      rec.getD 20 (XVal.i 0) = XVal.s (basePath ++ "\\" ++ "DSMK.12_V3_1.5mmZn") := by
  obtain ⟨rec, h1, h2, h3, _⟩ := populate_partname_drawing "1.5mm" "25-072" "7/24/2025"
    (Or.inr (Or.inl rfl)) none
    [some "1", some "b", some "c", some "5", some "3", some "ДСМК.12 DXF", some "7"]
    "ДСМК.12 DXF" rfl (by decide) (by decide)
  have he : pyStrip (transformedDesignation "ДСМК.12 DXF") ++
      versionSuffix (fieldD
        [some "1", some "b", some "c", some "5", some "3", some "ДСМК.12 DXF", some "7"] 4) ++
      thicknessSuffix "1.5mm" = "DSMK.12_V3_1.5mmZn" := by decide
  rw [he] at h1 h2 h3
  exact ⟨rec, h1, h2, h3⟩

/-- C10: in the projection loop, a non-header data row whose designation cell
is null or empty gets an empty Drawing but takes its PartName from the stale
`full_part_name` local: with no earlier non-empty-designation row the loop
raises (`none`, also at the whole-sheet level when such a row comes first);
with an earlier one, that earlier row's full part name is emitted as this
row's PartName. -/
theorem populate_stale_partname (sheet orderId todayDate : String) (tf : String)
    (ht : thicknessFieldStr sheet = some tf) (r : Row)
    (hd : fieldD r 5 = some "" ∨ fieldD r 5 = none)
    (hnh : isHeaderRow r = false) :
    populateRow sheet orderId todayDate none r = none ∧
    (∀ rows, populateRows sheet orderId todayDate (r :: rows) = none) ∧
    (∀ prev, ∃ rec : List XVal,
      populateRow sheet orderId todayDate (some prev) r = some (some prev, some rec) ∧
      rec.getD 1 (XVal.i 0) = XVal.s prev ∧
      rec.getD 20 (XVal.i 0) = XVal.s "") := by
  have h := populateRow_no_desig sheet orderId todayDate r tf hd hnh ht
  refine ⟨h.1, ?_, fun prev => ⟨_, h.2 prev, rfl, rfl⟩⟩
  intro rows
  have hgo : populateRowsGo sheet orderId todayDate (some (none, [])) (r :: rows) =
      populateRowsGo sheet orderId todayDate none rows := by
    simp [populateRowsGo, h.1]
  simp [populateRows, hgo, populateRowsGo_none]

/-- Witness for `populate_stale_partname` on sheet `"1mm"`: a row with empty
designation raises with no prior state (also as the first row of a sheet) and
reuses `"PREV"` as PartName with an empty Drawing otherwise. -/
theorem populate_stale_partname_witness :
    populateRow "1mm" "o" "d" none
      [some "1", some "b", some "c", none, some "3", some "", some "7"] = none ∧
    populateRows "1mm" "o" "d"
      [[some "1", some "b", some "c", none, some "3", some "", some "7"]] = none ∧
    ∃ rec : List XVal,
      populateRow "1mm" "o" "d" (some "PREV")
        [some "1", some "b", some "c", none, some "3", some "", some "7"] =
        some (some "PREV", some rec) ∧
      rec.getD 1 (XVal.i 0) = XVal.s "PREV" ∧
      rec.getD 20 (XVal.i 0) = XVal.s "" := by
  have h := populate_stale_partname "1mm" "o" "d" "1.000000" (by decide)
    [some "1", some "b", some "c", none, some "3", some "", some "7"] (Or.inl rfl) (by decide)
  exact ⟨h.1, h.2.1 [], h.2.2 "PREV"⟩

/-- Characterization of the key view of a row. -/
theorem rowKey_eq_some {k : Nat} {r : Row} {v : String} :
    rowKey k r = some v ↔ cellAt r k = some v ∧ v ≠ "" := by
  unfold rowKey
  cases h : cellAt r k with
  | none => simp
  | some w =>
    by_cases hw : w = ""
    · subst hw
      simp only [if_pos rfl]
      constructor
      · intro hc; cases hc
      · rintro ⟨hc, hv⟩; cases hc; exact absurd rfl hv
    · simp only [if_neg hw, Option.some_inj]
      constructor
      · rintro rfl; exact ⟨rfl, hw⟩
      · rintro ⟨hc, _⟩; cases hc; rfl

/-- Membership in the first-occurrence list. -/
theorem mem_firstOccurAux {α : Type} [DecidableEq α] (l : List α) :
    ∀ (acc : List α) (y : α), y ∈ firstOccurAux acc l ↔ y ∈ acc ∨ y ∈ l := by
  induction l with
  | nil => intro acc y; simp [firstOccurAux]
  | cons x rest ih =>
    intro acc y
    have hstep : firstOccurAux acc (x :: rest) =
        firstOccurAux (if x ∈ acc then acc else acc ++ [x]) rest := rfl
    rw [hstep, ih]
    by_cases hx : x ∈ acc
    · simp only [if_pos hx, List.mem_cons]
      constructor
      · rintro (h | h)
        · exact Or.inl h
        · exact Or.inr (Or.inr h)
      · rintro (h | rfl | h)
        · exact Or.inl h
        · exact Or.inl hx
        · exact Or.inr h
    · simp only [if_neg hx, List.mem_append, List.mem_singleton, List.mem_cons]
      tauto

/-- Membership in `firstOccur`. -/
theorem mem_firstOccur {α : Type} [DecidableEq α] {l : List α} {y : α} :
    y ∈ firstOccur l ↔ y ∈ l := by
  rw [firstOccur, mem_firstOccurAux]
  simp

/-- The first-occurrence list has no duplicates. -/
theorem nodup_firstOccurAux {α : Type} [DecidableEq α] (l : List α) :
    ∀ acc : List α, acc.Nodup → (firstOccurAux acc l).Nodup := by
  induction l with
  | nil => intro acc h; exact h
  | cons x rest ih =>
    intro acc hacc
    have hstep : firstOccurAux acc (x :: rest) =
        firstOccurAux (if x ∈ acc then acc else acc ++ [x]) rest := rfl
    rw [hstep]
    by_cases hx : x ∈ acc
    · rw [if_pos hx]; exact ih acc hacc
    · rw [if_neg hx]
      refine ih _ ?_
      simp [List.nodup_append, hacc, hx]

/-- The first-occurrence list of `firstOccur` has no duplicates. -/
theorem nodup_firstOccur {α : Type} [DecidableEq α] (l : List α) :
    (firstOccur l).Nodup :=
  nodup_firstOccurAux l [] List.nodup_nil

/-- Every key-filtered indexed row has a present key. -/
theorem keyFilterIdx_isSome (k : Nat) (l : List (Nat × Row)) :
    ∀ p ∈ keyFilterIdx k l, (rowKey k p.2).isSome := by
  intro p hp
  exact (List.mem_filter.mp hp).2

/-- The original positions of the key-filtered rows are strictly
increasing. -/
theorem keyFilterIdx_fst_pairwise (k : Nat) (t : Table) :
    ((keyFilterIdx k t.enum).map Prod.fst).Pairwise (· < ·) := by
  have hsub : ((keyFilterIdx k t.enum).map Prod.fst).Sublist (t.enum.map Prod.fst) :=
    (List.filter_sublist _).map Prod.fst
  have hpw : (t.enum.map Prod.fst).Pairwise (· < ·) := by
    rw [List.enum_map_fst]
    exact List.pairwise_lt_range _
  exact hpw.sublist hsub

/-- Dropping the positions from the key-filtered indexed rows yields the
key-filtered table. -/
theorem keyFilterIdx_map_snd (k : Nat) (t : Table) :
    (keyFilterIdx k t.enum).map Prod.snd = keyFilter k t := by
  have h := (List.filter_map (p := fun r => (rowKey k r).isSome) Prod.snd t.enum).symm
  rw [List.enum_map_snd] at h
  exact h

/-- Appending one indexed row changes the per-key sum by that row's parsed
quantity exactly when it bears the key. -/
theorem sumKeyOver_append_single (k s : Nat) (w : String) (l : List (Nat × Row))
    (x : Nat × Row) :
    sumKeyOver k s w (l ++ [x]) = sumKeyOver k s w l +
      (if rowKey k x.2 == some w then parseQtyDedup (cellAt x.2 s) else 0) := by
  unfold sumKeyOver
  rw [List.filter_append]
  by_cases h : rowKey k x.2 == some w <;> simp [h]

/-- Unfolding of `firstOccur` over a single appended element. -/
theorem firstOccur_append_single {α : Type} [DecidableEq α] (l : List α) (y : α) :
    firstOccur (l ++ [y]) =
      (if y ∈ firstOccur l then firstOccur l else firstOccur l ++ [y]) := by
  unfold firstOccur firstOccurAux
  rw [List.foldl_append]
  rfl

/-- Invariant preservation when the arriving row's key is already present:
only the matching record's running sum grows. -/
theorem aggStep_inv_dup (k s : Nat) (l : List (Nat × Row)) (recs : List AggRecord)
    (x : Nat × Row) (v : String) (hx : rowKey k x.2 = some v)
    (hvkeys : v ∈ recs.map AggRecord.key)
    (hinv : AggInv k s l recs) :
    AggInv k s (l ++ [x]) (recs.map (fun rec =>
      if rec.key == v then
        { rec with sum_value := rec.sum_value + parseQtyDedup (cellAt x.2 s) }
      else rec)) := by
  obtain ⟨inv1, inv2, inv3, inv4, inv5⟩ := hinv
  have hcell : cellAt x.2 k = some v := (rowKey_eq_some.mp hx).1
  have hb1 : ∀ rec : AggRecord,
      (if rec.key == v then
        { rec with sum_value := rec.sum_value + parseQtyDedup (cellAt x.2 s) }
      else rec).key = rec.key := by
    intro rec; by_cases h : rec.key == v <;> simp [h]
  have hb2 : ∀ rec : AggRecord,
      (if rec.key == v then
        { rec with sum_value := rec.sum_value + parseQtyDedup (cellAt x.2 s) }
      else rec).order = rec.order := by
    intro rec; by_cases h : rec.key == v <;> simp [h]
  have hb3 : ∀ rec : AggRecord,
      (if rec.key == v then
        { rec with sum_value := rec.sum_value + parseQtyDedup (cellAt x.2 s) }
      else rec).data = rec.data := by
    intro rec; by_cases h : rec.key == v <;> simp [h]
  have hmapK : (l ++ [x]).map (fun p => cellAt p.2 k) =
      l.map (fun p => cellAt p.2 k) ++ [some v] := by
    rw [List.map_append]; simp [hcell]
  refine ⟨?_, ?_, ?_, ?_, ?_⟩
  · rw [List.map_map, hmapK, firstOccur_append_single, if_pos]
    · rw [← inv1]
      exact List.map_congr_left fun rec _ => by
        by_cases h : rec.key = v <;> simp [Function.comp, h]
    · rw [← inv1]
      obtain ⟨rec, hrec, hkey⟩ := List.mem_map.mp hvkeys
      exact List.mem_map.mpr ⟨rec, hrec, by rw [hkey]⟩
  · intro rec' hrec'
    obtain ⟨rec, hrec, rfl⟩ := List.mem_map.mp hrec'
    simp only [hb1, hb2, hb3]
    rw [List.find?_append, inv2 rec hrec]
    rfl
  · intro rec' hrec'
    obtain ⟨rec, hrec, rfl⟩ := List.mem_map.mp hrec'
    simp only [hb1]
    rw [sumKeyOver_append_single, ← inv3 rec hrec, hx]
    by_cases hkey : rec.key = v
    · rw [if_pos (by simp [hkey])]
      simp [hkey]
    · have hne' : v ≠ rec.key := fun h => hkey h.symm
      simp [hkey, hne']
  · rw [List.map_map]
    have : (recs.map ((fun rec => rec.order) ∘ fun rec =>
        (if rec.key == v then
          { rec with sum_value := rec.sum_value + parseQtyDedup (cellAt x.2 s) }
        else rec))) = recs.map AggRecord.order :=
      List.map_congr_left fun rec _ => by
        by_cases h : rec.key = v <;> simp [Function.comp, h]
    rw [this]
    exact inv4
  · intro rec' hrec'
    obtain ⟨rec, hrec, rfl⟩ := List.mem_map.mp hrec'
    simp only [hb2]
    rw [List.map_append]
    exact List.mem_append_left _ (inv5 rec hrec)

/-- Invariant preservation when the arriving row's key is fresh: a new record
opens at the end with this row's position, data and parsed quantity. -/
theorem aggStep_inv_new (k s : Nat) (l : List (Nat × Row)) (recs : List AggRecord)
    (x : Nat × Row) (v : String) (hx : rowKey k x.2 = some v)
    (hgt : ∀ i ∈ l.map Prod.fst, i < x.1)
    (hvnot : v ∉ recs.map AggRecord.key)
    (hinv : AggInv k s l recs) :
    AggInv k s (l ++ [x]) (recs ++ [⟨v, x.1, x.2, parseQtyDedup (cellAt x.2 s)⟩]) := by
  obtain ⟨inv1, inv2, inv3, inv4, inv5⟩ := hinv
  have hcell : cellAt x.2 k = some v := (rowKey_eq_some.mp hx).1
  have hmapK : (l ++ [x]).map (fun p => cellAt p.2 k) =
      l.map (fun p => cellAt p.2 k) ++ [some v] := by
    rw [List.map_append]; simp [hcell]
  have hvnotopt : (some v : Option String) ∉
      recs.map (fun rec => (some rec.key : Option String)) := by
    intro hc
    obtain ⟨rec, hrec, hkey⟩ := List.mem_map.mp hc
    exact hvnot (List.mem_map.mpr ⟨rec, hrec, Option.some_inj.mp hkey⟩)
  have hnone : l.find? (fun p => rowKey k p.2 == some v) = none := by
    rw [List.find?_eq_none]
    intro p hp hpred
    have hrk : rowKey k p.2 = some v := by simpa using hpred
    have hK : (some v : Option String) ∈ l.map (fun p => cellAt p.2 k) :=
      List.mem_map.mpr ⟨p, hp, (rowKey_eq_some.mp hrk).1⟩
    have : (some v : Option String) ∈ firstOccur (l.map (fun p => cellAt p.2 k)) :=
      mem_firstOccur.mpr hK
    rw [← inv1] at this
    exact hvnotopt this
  refine ⟨?_, ?_, ?_, ?_, ?_⟩
  · rw [List.map_append, hmapK, firstOccur_append_single, if_neg (inv1 ▸ hvnotopt), ← inv1]
    rfl
  · intro rec' hrec'
    rcases List.mem_append.mp hrec' with hrec | hrec
    · rw [List.find?_append, inv2 rec' hrec]
      rfl
    · have : rec' = ⟨v, x.1, x.2, parseQtyDedup (cellAt x.2 s)⟩ := by simpa using hrec
      subst this
      rw [List.find?_append, hnone]
      simp [List.find?, hx]
  · intro rec' hrec'
    rcases List.mem_append.mp hrec' with hrec | hrec
    · rw [sumKeyOver_append_single, ← inv3 rec' hrec, hx]
      rw [if_neg ?hne]
      · simp
      case hne =>
        have hkne : rec'.key ≠ v := fun h =>
          hvnot (List.mem_map.mpr ⟨rec', hrec, h⟩)
        simpa using fun h => hkne h.symm
    · have : rec' = ⟨v, x.1, x.2, parseQtyDedup (cellAt x.2 s)⟩ := by simpa using hrec
      subst this
      have hzero : sumKeyOver k s v l = 0 := by
        unfold sumKeyOver
        have : l.filter (fun p => rowKey k p.2 == some v) = [] := by
          rw [List.filter_eq_nil_iff]
          intro p hp hpred
          exact List.find?_eq_none.mp hnone p hp hpred
        rw [this]
        rfl
      rw [sumKeyOver_append_single, hzero, hx]
      simp
  · rw [List.map_append, List.pairwise_append]
    refine ⟨inv4, by simp, ?_⟩
    intro a ha b hb
    have hbx : b = x.1 := by simpa using hb
    subst hbx
    obtain ⟨rec, hrec, rfl⟩ := List.mem_map.mp ha
    exact hgt _ (inv5 rec hrec)
  · intro rec' hrec'
    rw [List.map_append]
    rcases List.mem_append.mp hrec' with hrec | hrec
    · exact List.mem_append_left _ (inv5 rec' hrec)
    · have : rec' = ⟨v, x.1, x.2, parseQtyDedup (cellAt x.2 s)⟩ := by simpa using hrec
      subst this
      exact List.mem_append_right _ (by simp)

/-- One aggregation step preserves the loop invariant. -/
theorem aggStep_inv (k s : Nat) (l : List (Nat × Row)) (recs : List AggRecord)
    (x : Nat × Row) (v : String) (hx : rowKey k x.2 = some v)
    (hgt : ∀ i ∈ l.map Prod.fst, i < x.1)
    (hinv : AggInv k s l recs) :
    AggInv k s (l ++ [x]) (aggStep k s recs x) := by
  have hred : aggStep k s recs x =
      (if recs.any (fun rec => rec.key == v) then
        recs.map (fun rec =>
          if rec.key == v then
            { rec with sum_value := rec.sum_value + parseQtyDedup (cellAt x.2 s) }
          else rec)
      else recs ++ [⟨v, x.1, x.2, parseQtyDedup (cellAt x.2 s)⟩]) := by
    unfold aggStep
    rw [hx]
  rw [hred]
  by_cases hmem : recs.any (fun rec => rec.key == v)
  · rw [if_pos hmem]
    have hvkeys : v ∈ recs.map AggRecord.key := by
      obtain ⟨rec, hrec, hkey⟩ := List.any_eq_true.mp hmem
      exact List.mem_map.mpr ⟨rec, hrec, beq_iff_eq.mp hkey⟩
    exact aggStep_inv_dup k s l recs x v hx hvkeys hinv
  · rw [if_neg hmem]
    have hvnot : v ∉ recs.map AggRecord.key := by
      intro hc
      obtain ⟨rec, hrec, hkey⟩ := List.mem_map.mp hc
      exact hmem (List.any_eq_true.mpr ⟨rec, hrec, beq_iff_eq.mpr hkey⟩)
    exact aggStep_inv_new k s l recs x v hx hgt hvnot hinv

/-- The loop invariant holds after the whole aggregation fold over any
indexed row list with present keys and strictly increasing positions. -/
theorem aggregate_inv (k s : Nat) : ∀ l : List (Nat × Row),
    (∀ p ∈ l, (rowKey k p.2).isSome) → ((l.map Prod.fst).Pairwise (· < ·)) →
    AggInv k s l (aggregate k s l) := by
  intro l
  induction l using List.reverseRecOn with
  | nil =>
    intro _ _
    exact ⟨rfl, by simp [aggregate], by simp [aggregate], by simp [aggregate],
      by simp [aggregate]⟩
  | append_singleton l x ih =>
    intro hkeys hpair
    have h1 : ∀ p ∈ l, (rowKey k p.2).isSome := fun p hp =>
      hkeys p (List.mem_append_left _ hp)
    have hpair' := hpair
    rw [List.map_append, List.pairwise_append] at hpair'
    have h2 : (l.map Prod.fst).Pairwise (· < ·) := hpair'.1
    obtain ⟨v, hv⟩ := Option.isSome_iff_exists.mp (hkeys x (List.mem_append_right _ (by simp)))
    have hgt : ∀ i ∈ l.map Prod.fst, i < x.1 := fun i hi =>
      hpair'.2.2 i hi x.1 (by simp)
    have hfold : aggregate k s (l ++ [x]) = aggStep k s (aggregate k s l) x := by
      unfold aggregate
      rw [List.foldl_append]
      rfl
    rw [hfold]
    exact aggStep_inv k s l (aggregate k s l) x v hv hgt (ih h1 h2)

/-- The stored first-occurrence positions are already sorted, so the final
stable sort is the identity and `dedupRows` is the record list mapped to
rows. -/
theorem dedupRows_eq (k s : Nat) (t : Table) :
    dedupRows k s t = (aggregate k s (keyFilterIdx k t.enum)).map
      (fun rec => rec.data.set s (some (toString rec.sum_value))) := by
  unfold dedupRows
  congr 1
  apply List.mergeSort_of_sorted
  have inv := aggregate_inv k s (keyFilterIdx k t.enum) (keyFilterIdx_isSome k t.enum)
    (keyFilterIdx_fst_pairwise k t)
  have h4 := inv.2.2.2.1
  rw [List.pairwise_map] at h4
  simpa using h4.imp (fun h => le_of_lt h)

/-- Overwriting the sum cell does not change the key cell. -/
theorem cellAt_set_ne (r : Row) (c : Cell) {s k : Nat} (h : s ≠ k) :
    cellAt (r.set s c) k = cellAt r k := by
  unfold cellAt
  rw [List.getD_eq_getElem?_getD, List.getD_eq_getElem?_getD, List.getElem?_set_ne h]

/-- Overwriting the sum cell within range stores the new value. -/
theorem cellAt_set_self (r : Row) (c : Cell) {s : Nat} (h : s < r.length) :
    cellAt (r.set s c) s = c := by
  unfold cellAt
  rw [List.getD_eq_getElem?_getD, List.getElem?_set_self', List.getElem?_eq_getElem h]
  rfl

/-- Each aggregation record's stored row bears the record's key and is a row
of the table. -/
theorem agg_rec_data (k s : Nat) (t : Table) (rec : AggRecord)
    (hrec : rec ∈ aggregate k s (keyFilterIdx k t.enum)) :
    cellAt rec.data k = some rec.key ∧ rec.key ≠ "" ∧ rec.data ∈ t := by
  have inv := aggregate_inv k s (keyFilterIdx k t.enum) (keyFilterIdx_isSome k t.enum)
    (keyFilterIdx_fst_pairwise k t)
  have hfind := inv.2.1 rec hrec
  have hpred := List.find?_some hfind
  have hrk : rowKey k rec.data = some rec.key := by simpa using hpred
  have hm := List.mem_of_find?_eq_some hfind
  have hm2 : (rec.order, rec.data) ∈ t.enum := (List.mem_filter.mp hm).1
  have hmem : rec.data ∈ t := by
    have h3 : rec.data ∈ t.enum.map Prod.snd := List.mem_map.mpr ⟨_, hm2, rfl⟩
    rwa [List.enum_map_snd] at h3
  exact ⟨(rowKey_eq_some.mp hrk).1, (rowKey_eq_some.mp hrk).2, hmem⟩

/-- The record keys are exactly the distinct keys of the table, without
duplicates. -/
theorem agg_keys_nodup (k s : Nat) (t : Table) :
    ((aggregate k s (keyFilterIdx k t.enum)).map AggRecord.key).Nodup := by
  have inv := aggregate_inv k s (keyFilterIdx k t.enum) (keyFilterIdx_isSome k t.enum)
    (keyFilterIdx_fst_pairwise k t)
  have h0 : ((aggregate k s (keyFilterIdx k t.enum)).map
      (fun rec => (some rec.key : Option String))).Nodup := by
    rw [inv.1]
    exact nodup_firstOccur _
  refine List.Nodup.of_map (fun w => (some w : Option String)) ?_
  rw [List.map_map]
  exact h0

/-- Every key value present in the table appears among the record keys. -/
theorem agg_keys_complete (k s : Nat) (t : Table) (v : String) (hv : v ≠ "")
    (hmem : ∃ r ∈ t, cellAt r k = some v) :
    v ∈ (aggregate k s (keyFilterIdx k t.enum)).map AggRecord.key := by
  have inv := aggregate_inv k s (keyFilterIdx k t.enum) (keyFilterIdx_isSome k t.enum)
    (keyFilterIdx_fst_pairwise k t)
  obtain ⟨r, hr, hcl⟩ := hmem
  have hrk : rowKey k r = some v := rowKey_eq_some.mpr ⟨hcl, hv⟩
  have hKF : r ∈ keyFilter k t := List.mem_filter.mpr ⟨hr, by rw [hrk]; rfl⟩
  have h1 : (some v : Option String) ∈ (keyFilter k t).map (fun r => cellAt r k) :=
    List.mem_map.mpr ⟨r, hKF, hcl⟩
  rw [← keyFilterIdx_map_snd k t, List.map_map] at h1
  have h2 : (some v : Option String) ∈
      firstOccur ((keyFilterIdx k t.enum).map (fun p => cellAt p.2 k)) :=
    mem_firstOccur.mpr h1
  rw [← inv.1] at h2
  obtain ⟨rec, hrec, hkey⟩ := List.mem_map.mp h2
  exact List.mem_map.mpr ⟨rec, hrec, Option.some_inj.mp hkey⟩

/-- The per-key sum over the key-filtered indexed rows equals the sum over
all table rows bearing the key (rows without a key never bear it). -/
theorem sumKeyOver_eq_table (k s : Nat) (v : String) (hv : v ≠ "") (t : Table) :
    sumKeyOver k s v (keyFilterIdx k t.enum) =
      ((t.filter (fun r => cellAt r k == some v)).map
        (fun r => parseQtyDedup (cellAt r s))).sum := by
  unfold sumKeyOver
  congr 1
  calc ((keyFilterIdx k t.enum).filter (fun p => rowKey k p.2 == some v)).map
        (fun p => parseQtyDedup (cellAt p.2 s))
      = (((keyFilterIdx k t.enum).filter (fun p => rowKey k p.2 == some v)).map Prod.snd).map
        (fun r => parseQtyDedup (cellAt r s)) := by rw [List.map_map]; rfl
    _ = (((keyFilterIdx k t.enum).map Prod.snd).filter (fun r => rowKey k r == some v)).map
        (fun r => parseQtyDedup (cellAt r s)) := by rw [List.filter_map]; rfl
    _ = ((keyFilter k t).filter (fun r => rowKey k r == some v)).map
        (fun r => parseQtyDedup (cellAt r s)) := by rw [keyFilterIdx_map_snd]
    _ = (t.filter (fun r => cellAt r k == some v)).map
        (fun r => parseQtyDedup (cellAt r s)) := by
        unfold keyFilter
        rw [List.filter_filter]
        congr 1
        apply List.filter_congr
        intro r _
        cases h : cellAt r k with
        | none => simp [rowKey, h]
        | some w =>
          by_cases hw : w = ""
          · subst hw
            simp [rowKey, h]
            exact fun hc => hv hc.symm
          · simp [rowKey, h, hw]

/-- C2: the deduplicated rows carry the distinct keys in ascending order of
first occurrence in the key-filtered input — row `i` precedes row `j` exactly
when row `i`'s key first occurs before row `j`'s key — and the full stage
output is exactly these rows projected onto the kept columns, preserving
that order. -/
theorem dedup_order_preservation (k s : Nat) (hks : k ≠ s) (t : Table) :
    (dedupRows k s t).map (fun r => cellAt r k) =
      firstOccur ((keyFilter k t).map (fun r => cellAt r k)) ∧
    ∀ keep ncols out, process_duplicates k s keep ncols t = some out →
      out = (dedupRows k s t).map (projectRow keep ncols) := by
  constructor
  · have inv := aggregate_inv k s (keyFilterIdx k t.enum) (keyFilterIdx_isSome k t.enum)
      (keyFilterIdx_fst_pairwise k t)
    rw [dedupRows_eq, List.map_map]
    have hcongr : (aggregate k s (keyFilterIdx k t.enum)).map
        ((fun r => cellAt r k) ∘ fun rec => rec.data.set s (some (toString rec.sum_value))) =
        (aggregate k s (keyFilterIdx k t.enum)).map
          (fun rec => (some rec.key : Option String)) := by
      apply List.map_congr_left
      intro rec hrec
      simp only [Function.comp]
      rw [cellAt_set_ne _ _ (fun h => hks h.symm)]
      exact (agg_rec_data k s t rec hrec).1
    rw [hcongr, inv.1, ← keyFilterIdx_map_snd k t, List.map_map]
    rfl
  · intro keep ncols out h
    simp only [process_duplicates] at h
    split_ifs at h with h1 h2 h3
    exact (Option.some_inj.mp h).symm

/-- Witness for `dedup_order_preservation`: on a table whose keys appear in
the order K1, K2, K1, the deduplicated keys are K1, K2. -/
theorem dedup_order_preservation_witness :
    (dedupRows 0 1 [[some "K1", some "2,5"], [some "K2", some "3"],
        [some "K1", some "4"]]).map (fun r => cellAt r 0) =
      firstOccur (((keyFilter 0 [[some "K1", some "2,5"], [some "K2", some "3"],
        [some "K1", some "4"]])).map (fun r => cellAt r 0)) :=
  (dedup_order_preservation 0 1 (by decide)
    [[some "K1", some "2,5"], [some "K2", some "3"], [some "K1", some "4"]]).1

/-- C1: for each distinct non-null, non-empty key value, the deduplicated
rows contain exactly one row bearing that key, and that row's sum cell holds
the sum, over all input rows bearing the key, of the parsed quantities
(null, empty, and unparseable cells contributing zero). -/
theorem dedup_sum_conservation (k s : Nat) (hks : k ≠ s) (t : Table)
    (hlen : ∀ r ∈ t, s < r.length) (v : String) (hv : v ≠ "")
    (hmem : ∃ r ∈ t, cellAt r k = some v) :
    ((dedupRows k s t).filter (fun r => cellAt r k == some v)).length = 1 ∧
    ∀ r ∈ dedupRows k s t, cellAt r k = some v →
      cellAt r s = some (toString
        (((t.filter (fun r => cellAt r k == some v)).map
          (fun r => parseQtyDedup (cellAt r s))).sum)) := by
  have inv := aggregate_inv k s (keyFilterIdx k t.enum) (keyFilterIdx_isSome k t.enum)
    (keyFilterIdx_fst_pairwise k t)
  have hkeycell : ∀ rec ∈ aggregate k s (keyFilterIdx k t.enum),
      cellAt (rec.data.set s (some (toString rec.sum_value))) k = some rec.key := by
    intro rec hrec
    rw [cellAt_set_ne _ _ (fun h => hks h.symm)]
    exact (agg_rec_data k s t rec hrec).1
  constructor
  · rw [dedupRows_eq, List.filter_map, List.length_map]
    have hcongr : (aggregate k s (keyFilterIdx k t.enum)).filter
        ((fun r => cellAt r k == some v) ∘
          fun rec => rec.data.set s (some (toString rec.sum_value))) =
        (aggregate k s (keyFilterIdx k t.enum)).filter (fun rec => rec.key == v) := by
      apply List.filter_congr
      intro rec hrec
      simp only [Function.comp]
      rw [hkeycell rec hrec]
      by_cases h : rec.key = v <;> simp [h]
    rw [hcongr, ← List.countP_eq_length_filter]
    have h1 : v ∈ (aggregate k s (keyFilterIdx k t.enum)).map AggRecord.key :=
      agg_keys_complete k s t v hv hmem
    have h2 := List.count_eq_one_of_mem (agg_keys_nodup k s t) h1
    rw [List.count_eq_countP, List.countP_map] at h2
    exact h2
  · intro r hr hkey
    rw [dedupRows_eq] at hr
    obtain ⟨rec, hrec, rfl⟩ := List.mem_map.mp hr
    have hkeq : rec.key = v :=
      Option.some_inj.mp ((hkeycell rec hrec).symm.trans hkey)
    have hdata := (agg_rec_data k s t rec hrec).2.2
    rw [cellAt_set_self _ _ (hlen rec.data hdata)]
    have hsum := inv.2.2.1 rec hrec
    rw [hkeq] at hsum
    rw [hsum, sumKeyOver_eq_table k s v hv t]

/-- Witness for `dedup_sum_conservation`: the table with keys K1, K2, K1 has
exactly one deduplicated row with key K1. -/
theorem dedup_sum_conservation_witness :
    ((dedupRows 0 1 [[some "K1", some "2,5"], [some "K2", some "3"],
        [some "K1", some "4"]]).filter (fun r => cellAt r 0 == some "K1")).length = 1 :=
  (dedup_sum_conservation 0 1 (by decide)
    [[some "K1", some "2,5"], [some "K2", some "3"], [some "K1", some "4"]]
    (by decide) "K1" (by decide) ⟨[some "K1", some "2,5"], by decide, by decide⟩).1

end Pipeline
